import Mathlib

/-!
A shallow embedding of the incremental chunk-mesh pipeline of
`prismarine-viewer`: the coordinator (`viewer/lib/worldrenderer.js`), the
generic LRU cache (`viewer/lib/lruCache.js`), the worker drain loop
(`viewer/lib/worker.js`), the world/column store (`viewer/lib/world.js`) and
the GPU-resource disposal helpers (`viewer/lib/dispose.js`).

JavaScript numbers that hold block/section coordinates are embedded as `Int`
(all the code paths modelled here floor their inputs); object keys such as
`"x,y,z"` strings are embedded as integer tuples (the string formatting of
distinct integer tuples is injective, so nothing is lost); JS `Map`/`Set`
iteration order is modelled by insertion-ordered lists; side effects
(`postMessage`, `.dispose()` calls) are modelled as explicit event lists
returned next to the successor state.
-/

/-- `vec3`'s value type, restricted to the integer block positions the
renderer feeds it. -/
structure Vec3 where
  x : Int
  y : Int
  z : Int
deriving DecidableEq, Repr

/-- `Vec3.offset(dx, dy, dz)` from the `vec3` library. -/
def Vec3.offset (v : Vec3) (dx dy dz : Int) : Vec3 :=
  ⟨v.x + dx, v.y + dy, v.z + dz⟩

/-- `function mod (x, n) { return ((x % n) + n) % n }` from
`worldrenderer.js`.  JavaScript `%` truncates toward zero, which is
`Int.tmod`. -/
def mod (x n : Int) : Int :=
  Int.tmod (Int.tmod x n + n) n

/-- `Math.floor(a / 16)` on an integer `a`: mathematical floor division. -/
def floorDiv16 (a : Int) : Int :=
  Int.fdiv a 16

/-- A section key `"x,y,z"`, with the three components kept as integers. -/
abbrev SectionKey := Int × Int × Int

/-- The section-origin key built by `WorldRenderer.setSectionDirty`:
`` `${Math.floor(pos.x / 16) * 16},${Math.floor(pos.y / 16) * 16},${Math.floor(pos.z / 16) * 16}` ``. -/
def sectionKeyOf (pos : Vec3) : SectionKey :=
  (floorDiv16 pos.x * 16, floorDiv16 pos.y * 16, floorDiv16 pos.z * 16)

/-- The worker index computed inline in `WorldRenderer.setSectionDirty`:
`mod(Math.floor(pos.x / 16) + Math.floor(pos.y / 16) + Math.floor(pos.z / 16), this.workers.length)`. -/
def workerIndexFor (pos : Vec3) (numWorkers : Nat) : Int :=
  mod (floorDiv16 pos.x + floorDiv16 pos.y + floorDiv16 pos.z) (numWorkers : Int)

/-- `viewer/lib/lruCache.js`.  The backing JS `Map` iterates in insertion
order, with re-inserted keys moved to the end; it is embedded as an
insertion-ordered association list whose head is the oldest entry.  Keys are
the numeric block-state ids the repository uses. -/
structure LRUCache (α : Type) where
  maxSize : Nat
  cache : List (Nat × α)
deriving DecidableEq, Repr

/-- `new LRUCache(maxSize)` (the JS `Map` starts empty). -/
def LRUCache.empty (α : Type) (maxSize : Nat) : LRUCache α :=
  ⟨maxSize, []⟩

/-- `this.cache.has(key)`. -/
def LRUCache.hasKey (c : LRUCache α) (k : Nat) : Bool :=
  (c.cache.find? (fun e => e.1 == k)).isSome

/-- `LRUCache.get`: a hit deletes the entry and re-inserts it at the end of
the `Map` (most recently used); a miss returns `undefined`. -/
def LRUCache.get (c : LRUCache α) (k : Nat) : Option α × LRUCache α :=
  match c.cache.find? (fun e => e.1 == k) with
  | none => (none, c)
  | some (_, v) =>
      (some v, { c with cache := c.cache.filter (fun e => !(e.1 == k)) ++ [(k, v)] })

/-- `LRUCache.set`: an existing key is deleted first (position refresh);
otherwise, at capacity, the oldest entry — `this.cache.keys().next().value`,
the head of the insertion order — is deleted; the new pair is appended. -/
def LRUCache.set (c : LRUCache α) (k : Nat) (v : α) : LRUCache α :=
  if (c.cache.find? (fun e => e.1 == k)).isSome then
    { c with cache := c.cache.filter (fun e => !(e.1 == k)) ++ [(k, v)] }
  else if c.cache.length ≥ c.maxSize then
    { c with cache := c.cache.tail ++ [(k, v)] }
  else
    { c with cache := c.cache ++ [(k, v)] }

/-- `this.cache.delete(key)` (result ignored by every caller in the repo). -/
def LRUCache.deleteKey (c : LRUCache α) (k : Nat) : LRUCache α :=
  { c with cache := c.cache.filter (fun e => !(e.1 == k)) }

/-- `this.cache.clear()`. -/
def LRUCache.clear (c : LRUCache α) : LRUCache α :=
  { c with cache := [] }

/-- `get size ()`. -/
def LRUCache.size (c : LRUCache α) : Nat :=
  c.cache.length

/-- The keys of the cache in `Map` iteration order (oldest first). -/
def LRUCache.keys (c : LRUCache α) : List Nat :=
  c.cache.map Prod.fst

/-- One observable `LRUCache` operation, for stating properties over
arbitrary call sequences. -/
inductive LRUOp (α : Type) where
  | get (k : Nat)
  | set (k : Nat) (v : α)
  | del (k : Nat)
  | clear
deriving DecidableEq, Repr

/-- Apply one operation (the value returned by `get` is discarded; only the
state evolution matters for the cache invariants). -/
def LRUCache.applyOp (c : LRUCache α) : LRUOp α → LRUCache α
  | .get k => (c.get k).2
  | .set k v => c.set k v
  | .del k => c.deleteKey k
  | .clear => c.clear

/-- Run a sequence of operations front to back. -/
def LRUCache.run (c : LRUCache α) (ops : List (LRUOp α)) : LRUCache α :=
  ops.foldl LRUCache.applyOp c

/-! ### The WorldRenderer coordinator (`viewer/lib/worldrenderer.js`) -/

/-- `WORLD_HEIGHT` from `viewer/lib/constants.js`. -/
def WORLD_HEIGHT : Nat := 256

/-- `SECTION_HEIGHT` from `viewer/lib/constants.js`. -/
def SECTION_HEIGHT : Nat := 16

/-- A THREE.js material as far as the renderer observes it: its identity and
the texture ids currently installed in its texture-map slots (the shared
`MeshLambertMaterial` only ever populates `map`). -/
structure MaterialObj where
  id : Nat
  maps : List Nat
deriving DecidableEq, Repr

mutual

/-- A THREE.js `Object3D`/`Mesh` as far as disposal observes it: an optional
geometry buffer, an optional material reference, and child objects (a
mutually-defined list, so that the recursion of `dispose3` is structural).
Section meshes are leaves with both fields set. -/
inductive Object3D where
  | node (geometryId : Option Nat) (material : Option MaterialObj)
      (children : Object3DList)

inductive Object3DList where
  | nil
  | cons (head : Object3D) (tail : Object3DList)

end

/-- One observable GPU-release call. -/
inductive DisposeAction where
  | geometry (id : Nat)
  | material (id : Nat)
  | texture (id : Nat)
deriving DecidableEq, Repr

/-- `disposeMaterial` from `viewer/lib/dispose.js`: disposes every installed
texture map, then the material itself. -/
def disposeMaterial (m : MaterialObj) : List DisposeAction :=
  m.maps.map DisposeAction.texture ++ [DisposeAction.material m.id]

mutual

/-- `dispose3(object, { disposeTextures, recursive: true })` from
`viewer/lib/dispose.js`: children first, then the geometry, then the
material — via `disposeMaterial` when `disposeTextures` is set, else a bare
`material.dispose()`. -/
def dispose3 : Object3D → Bool → List DisposeAction
  | .node g m children, disposeTextures =>
      dispose3List children disposeTextures
        ++ (match g with
            | some gid => [DisposeAction.geometry gid]
            | none => [])
        ++ (match m with
            | some mat =>
                if disposeTextures then disposeMaterial mat
                else [DisposeAction.material mat.id]
            | none => [])

def dispose3List : Object3DList → Bool → List DisposeAction
  | .nil, _ => []
  | .cons c rest, disposeTextures =>
      dispose3 c disposeTextures ++ dispose3List rest disposeTextures

end

/-- `disposeTexture` from `viewer/lib/dispose.js`. -/
def disposeTextureAction (t : Option Nat) : List DisposeAction :=
  match t with
  | some tid => [DisposeAction.texture tid]
  | none => []

/-- A message posted to one worker (`worker.postMessage`). -/
inductive WorkerMsg where
  | dirty (x y z : Int) (value : Bool)
  | blockUpdate (x y z : Int) (stateId : Nat)
  | unloadChunk (x z : Int)
  | reset
deriving DecidableEq, Repr

/-- A dispatch: which worker index received which message. -/
structure Dispatch where
  worker : Int
  msg : WorkerMsg
deriving DecidableEq, Repr

/-- The mutable state of a `WorldRenderer` instance, restricted to the
fields the modelled methods read or write (the scene handle, event emitter
and texture URL are omitted; `workers.length` is kept as `numWorkers`). -/
structure RendererState where
  active : Bool
  workersActive : Bool
  numWorkers : Nat
  loadedChunks : List (Int × Int)
  sectionsOutstanding : List SectionKey
  pendingDirtySections : List SectionKey
  sectionMeshs : List (SectionKey × Object3D)
  material : Option MaterialObj
  currentTexture : Option Nat

/-- JS `Set.add`: append if absent (iteration order is insertion order). -/
def insertKey (k : SectionKey) (l : List SectionKey) : List SectionKey :=
  if k ∈ l then l else l ++ [k]

/-- JS `Set.delete`. -/
def removeKey (k : SectionKey) (l : List SectionKey) : List SectionKey :=
  l.filter (fun k2 => decide (k2 ≠ k))

/-- Association-list lookup for the JS object `this.sectionMeshs`. -/
def lookupMesh (k : SectionKey) (l : List (SectionKey × Object3D)) : Option Object3D :=
  match l.find? (fun e => decide (e.1 = k)) with
  | some e => some e.2
  | none => none

/-- Deletion for the JS object `this.sectionMeshs`. -/
def removeMesh (k : SectionKey) (l : List (SectionKey × Object3D)) :
    List (SectionKey × Object3D) :=
  l.filter (fun e => decide (e.1 ≠ k))

/-- `WorldRenderer.setSectionDirty(pos, value)`: bail out when inactive or
workerless; dedup against the per-frame pending set; otherwise dispatch a
`dirty` message to the deterministically chosen worker and update the
outstanding/pending sets. -/
def RendererState.setSectionDirty (s : RendererState) (pos : Vec3)
    (value : Bool := true) : RendererState × List Dispatch :=
  if ¬ s.active ∨ s.numWorkers = 0 then (s, [])
  else
    let key := sectionKeyOf pos
    if value ∧ key ∈ s.pendingDirtySections then (s, [])
    else
      let hash := workerIndexFor pos s.numWorkers
      let d : Dispatch := ⟨hash, .dirty pos.x pos.y pos.z value⟩
      if value then
        ({ s with
            sectionsOutstanding := insertKey key s.sectionsOutstanding,
            pendingDirtySections := insertKey key s.pendingDirtySections }, [d])
      else
        ({ s with
            sectionsOutstanding := removeKey key s.sectionsOutstanding,
            pendingDirtySections := removeKey key s.pendingDirtySections }, [d])

/-- `WorldRenderer.clearPendingDirtySections()` — invoked exactly once per
frame, at the end of `Viewer.update()`. -/
def RendererState.clearPendingDirtySections (s : RendererState) : RendererState :=
  { s with pendingDirtySections := [] }

/-- JS `x & 15` on a (32-bit two's-complement) integer block coordinate:
this equals the true modulo by 16, non-negative also for negative inputs. -/
def jsAnd15 (x : Int) : Int :=
  Int.emod x 16

/-- The face-neighbor positions whose `setSectionDirty` call is triggered by
the six boundary tests of `WorldRenderer.setBlockStateId`, in program order:
`if ((pos.x & 15) === 0) this.setSectionDirty(pos.offset(-16, 0, 0))` …
`if ((pos.z & 15) === 15) this.setSectionDirty(pos.offset(0, 0, 16))`. -/
def boundaryNeighborTargets (pos : Vec3) : List Vec3 :=
  (if jsAnd15 pos.x = 0 then [pos.offset (-16) 0 0] else [])
    ++ (if jsAnd15 pos.x = 15 then [pos.offset 16 0 0] else [])
    ++ (if jsAnd15 pos.y = 0 then [pos.offset 0 (-16) 0] else [])
    ++ (if jsAnd15 pos.y = 15 then [pos.offset 0 16 0] else [])
    ++ (if jsAnd15 pos.z = 0 then [pos.offset 0 0 (-16)] else [])
    ++ (if jsAnd15 pos.z = 15 then [pos.offset 0 0 16] else [])

/-- One `this.setSectionDirty(q)` statement, threaded through state and
accumulated dispatches. -/
def RendererState.markDirtyAccum (r : RendererState × List Dispatch)
    (q : Vec3) : RendererState × List Dispatch :=
  let r2 := r.1.setSectionDirty q
  (r2.1, r.2 ++ r2.2)

/-- `WorldRenderer.setBlockStateId(pos, stateId)`: broadcast the mutation to
every worker, mark the block's own section dirty, then run the six
conditional neighbor `setSectionDirty` statements (embedded as a fold over
the triggered targets, in program order). -/
def RendererState.setBlockStateId (s : RendererState) (pos : Vec3)
    (stateId : Nat) : RendererState × List Dispatch :=
  let broadcasts := (List.range s.numWorkers).map
    (fun i => (⟨(i : Int), .blockUpdate pos.x pos.y pos.z stateId⟩ : Dispatch))
  let r1 := s.setSectionDirty pos
  (boundaryNeighborTargets pos).foldl RendererState.markDirtyAccum
    (r1.1, broadcasts ++ r1.2)

/-! ### Coordinator mesh lifecycle (`_handleGeometry`, `removeColumn`,
`resetWorld`, `dispose`, `updateTexturesData`) -/

/-- `WorldRenderer._handleGeometry(data)`: an existing mesh at the section
key is removed and disposed with `{ disposeTextures: false }`; the result is
then discarded if the owning column is unloaded (stale-result guard), else a
new mesh referencing the shared material is installed. -/
def RendererState.handleGeometry (s : RendererState) (key : SectionKey)
    (geomId : Nat) : RendererState × List DisposeAction :=
  let r1 :=
    match lookupMesh key s.sectionMeshs with
    | some mesh =>
        ({ s with sectionMeshs := removeMesh key s.sectionMeshs },
          dispose3 mesh false)
    | none => (s, [])
  if (key.1, key.2.2) ∈ r1.1.loadedChunks then
    ({ r1.1 with sectionMeshs := r1.1.sectionMeshs
          ++ [(key, Object3D.node (some geomId) r1.1.material Object3DList.nil)] },
      r1.2)
  else r1

/-- The y values `0, 16, …, 240` iterated by
`for (let y = 0; y < WORLD_HEIGHT; y += SECTION_HEIGHT)`. -/
def sectionYs : List Int :=
  (List.range (WORLD_HEIGHT / SECTION_HEIGHT)).map
    (fun i => (SECTION_HEIGHT : Int) * (i : Int))

/-- `WorldRenderer.removeColumn(x, z)`: forget the loaded chunk, broadcast
`unloadChunk` to every worker, then for each section y: clear its dirty
flag (`setSectionDirty(pos, false)`), dispose any mesh at the raw key
`x,y,z` with `{ disposeTextures: false }`, and delete the mesh entry. -/
def RendererState.removeColumn (s : RendererState) (x z : Int) :
    RendererState × List Dispatch × List DisposeAction :=
  let s0 := { s with
    loadedChunks := s.loadedChunks.filter (fun c => decide (c ≠ (x, z))) }
  let broadcasts := (List.range s0.numWorkers).map
    (fun i => (⟨(i : Int), .unloadChunk x z⟩ : Dispatch))
  sectionYs.foldl
    (fun acc y =>
      let r := acc.1.setSectionDirty ⟨x, y, z⟩ false
      let key : SectionKey := (x, y, z)
      let meshActs :=
        match lookupMesh key r.1.sectionMeshs with
        | some mesh => dispose3 mesh false
        | none => []
      ({ r.1 with sectionMeshs := removeMesh key r.1.sectionMeshs },
        acc.2.1 ++ r.2, acc.2.2 ++ meshActs))
    (s0, broadcasts, [])

/-- `WorldRenderer.resetWorld()`: deactivate, dispose every section mesh
with `{ disposeTextures: false }`, clear the mesh/chunk/outstanding state
(the pending set is left as is), and broadcast `reset` to every worker. -/
def RendererState.resetWorld (s : RendererState) :
    RendererState × List Dispatch × List DisposeAction :=
  let acts := (s.sectionMeshs.map (fun e => dispose3 e.2 false)).flatten
  let broadcasts := (List.range s.numWorkers).map
    (fun i => (⟨(i : Int), .reset⟩ : Dispatch))
  ({ s with
      active := false, sectionMeshs := [], loadedChunks := [],
      sectionsOutstanding := [] }, broadcasts, acts)

/-- `WorldRenderer.dispose()`: full teardown — dispose every mesh (again
with `{ disposeTextures: false }`), then the current texture, then the
shared material itself; terminate all workers and clear the state. -/
def RendererState.dispose (s : RendererState) :
    RendererState × List DisposeAction :=
  let meshActs := (s.sectionMeshs.map (fun e => dispose3 e.2 false)).flatten
  let texActs := disposeTextureAction s.currentTexture
  let matActs :=
    match s.material with
    | some m => [DisposeAction.material m.id]
    | none => []
  ({ s with
      active := false, workersActive := false, sectionMeshs := [],
      currentTexture := none, material := none, numWorkers := 0,
      loadedChunks := [], sectionsOutstanding := [] },
    meshActs ++ texActs ++ matActs)

/-- Observable events of the texture-swap callback, in program order. -/
inductive TexEvent where
  | disposeTex (id : Nat)
  | installTex (id : Nat)
deriving DecidableEq, Repr

/-- The `loadTexture` callback inside `WorldRenderer.updateTexturesData`:
`if (this.currentTexture) disposeTexture(this.currentTexture)` first, then
the new texture is configured and installed (`this.material.map = texture;
this.currentTexture = texture`). -/
def RendererState.textureLoadCallback (s : RendererState) (tex : Nat) :
    RendererState × List TexEvent :=
  let disposeEvents :=
    match s.currentTexture with
    | some told => [TexEvent.disposeTex told]
    | none => []
  ({ s with
      material :=
        match s.material with
        | some m => some { m with maps := [tex] }
        | none => none,
      currentTexture := some tex },
    disposeEvents ++ [TexEvent.installTex tex])

/-! ### Claim C1: shared material/texture vs per-mesh cleanup -/

/-- Is this action a texture release? -/
def DisposeAction.isTextureDispose : DisposeAction → Bool
  | .texture _ => true
  | _ => false

/-- The material reference of an object. -/
def Object3D.materialRef : Object3D → Option MaterialObj
  | .node _ m _ => m

/-! ### The world/column store (`viewer/lib/world.js`) -/

/-- The block descriptor as far as the claims observe it: the numeric block
state id and the (floored) query position that `getBlock` attaches before
returning.  (The shape/cube/biome metadata attached from the external
`prismarine-chunk`/`minecraft-data` tables is outside THE CORE.) -/
structure Block where
  stateId : Nat
  position : Int × Int × Int
deriving DecidableEq, Repr

/-- A `prismarine-chunk` column (external), modelled by what the repository
reads of it: the per-sub-chunk presence array `sections`, and a block-state
store addressed by in-column coordinates `(x & 15, y, z & 15)` (state id 0 —
air — when unset). -/
structure PColumn where
  sections : List Bool
  blocks : List ((Int × Int × Int) × Nat)
deriving DecidableEq, Repr

/-- `chunk.sections[Math.floor(y / 16)]` truthiness (undefined for an index
outside the array). -/
def PColumn.sectionAt (c : PColumn) (i : Int) : Bool :=
  if i < 0 then false else c.sections.getD i.toNat false

/-- External `column.getBlockStateId(posInChunk)`. -/
def PColumn.getBlockStateId (c : PColumn) (p : Int × Int × Int) : Nat :=
  match c.blocks.find? (fun e => decide (e.1 = p)) with
  | some e => e.2
  | none => 0

/-- External `column.setBlockStateId(posInChunk, stateId)`. -/
def PColumn.setBlockStateId (c : PColumn) (p : Int × Int × Int) (sid : Nat) :
    PColumn :=
  { c with blocks := c.blocks.filter (fun e => decide (e.1 ≠ p)) ++ [(p, sid)] }

/-- `columnKey(Math.floor(pos.x / 16) * 16, Math.floor(pos.z / 16) * 16)`
as computed by `World.getBlock` / `World.setBlockStateId`. -/
def columnKeyOfPos (pos : Vec3) : Int × Int :=
  (floorDiv16 pos.x * 16, floorDiv16 pos.z * 16)

/-- `posInChunk(pos)` from `world.js`: floor, then `x &= 15`, `z &= 15`
(`y` is left as the full column-local height). -/
def posInChunk (pos : Vec3) : Int × Int × Int :=
  (jsAnd15 pos.x, pos.y, jsAnd15 pos.z)

/-- `viewer/lib/world.js` `World`: the loaded columns keyed by
`columnKey(x,z)` plus the bounded block-metadata LRU cache. -/
structure WWorld where
  columns : List ((Int × Int) × PColumn)
  blockCache : LRUCache Block
deriving DecidableEq, Repr

/-- `World.getColumn(x, z)`. -/
def WWorld.getColumn (w : WWorld) (x z : Int) : Option PColumn :=
  match w.columns.find? (fun e => decide (e.1 = (x, z))) with
  | some e => some e.2
  | none => none

/-- `World.addColumn(x, z, json)`: replaces any existing column at the key. -/
def WWorld.addColumn (w : WWorld) (x z : Int) (c : PColumn) : WWorld :=
  { w with columns :=
      w.columns.filter (fun e => decide (e.1 ≠ (x, z))) ++ [((x, z), c)] }

/-- `World.removeColumn(x, z)`. -/
def WWorld.removeColumn (w : WWorld) (x z : Int) : WWorld :=
  { w with columns := w.columns.filter (fun e => decide (e.1 ≠ (x, z))) }

/-- `World.setBlockStateId(pos, stateId)`: `false` when the owning column is
not loaded, else mutate the column's block store at `posInChunk(pos)` and
return `true`. -/
def WWorld.setBlockStateId (w : WWorld) (pos : Vec3) (sid : Nat) :
    Bool × WWorld :=
  let key := columnKeyOfPos pos
  match w.columns.find? (fun e => decide (e.1 = key)) with
  | none => (false, w)
  | some _ =>
      (true, { w with columns := w.columns.map (fun e2 =>
          if e2.1 = key then (e2.1, e2.2.setBlockStateId (posInChunk pos) sid)
          else e2) })

/-- `World.getBlock(pos)`: `null` when the owning column is not loaded;
else resolve the state id at `posInChunk(pos)`, populate/touch the block
cache keyed by that state id, and return the descriptor with the query
position attached. -/
def WWorld.getBlock (w : WWorld) (pos : Vec3) : Option Block × WWorld :=
  let key := columnKeyOfPos pos
  match w.columns.find? (fun e => decide (e.1 = key)) with
  | none => (none, w)
  | some e =>
      let column := e.2
      let loc := (pos.x, pos.y, pos.z)
      let locInChunk := posInChunk pos
      let stateId := column.getBlockStateId locInChunk
      let r := w.blockCache.get stateId
      match r.1 with
      | some b => (some { b with position := loc }, { w with blockCache := r.2 })
      | none =>
          let b : Block := { stateId := stateId, position := locInChunk }
          (some { b with position := loc },
            { w with blockCache := r.2.set stateId b })

/-! ### The worker drain loop (`viewer/lib/worker.js`) -/

/-- The worker's module state: the replica `World` (null before
`{version}`), the block-state table (abstracted to its presence — its
content only feeds the external mesher), and the `dirtySections` queue (the
keys of a JS object, hence distinct). -/
structure WorkerState where
  world : Option WWorld
  blocksStates : Option Nat
  dirtySections : List SectionKey

/-- An outbound `postMessage` of the worker. -/
inductive OutMsg where
  | geometry (key : SectionKey) (geom : Nat)
  | sectionFinished (key : SectionKey)
  | generationError (key : SectionKey) (msg : String)
deriving DecidableEq, Repr

/-- Does the column of the section key still exist in the replica world,
with its vertical sub-chunk present?
(`chunk && chunk.sections[Math.floor(y / 16)]` over `world.getColumn(x, z)`.) -/
def sectionStillExists (w : WWorld) (key : SectionKey) : Bool :=
  match w.getColumn key.1 key.2.2 with
  | some chunk => chunk.sectionAt (floorDiv16 key.2.1)
  | none => false

/-- One iteration of the `for (const key of sections)` drain loop.  The
external `getSectionGeometry` call is the parameter `mesher`: `.ok` models a
returned geometry, `.error` models a thrown exception (caught per section).
Every iteration ends by posting `sectionFinished` for its key. -/
def drainStep (w : WWorld) (mesher : SectionKey → Except String Nat)
    (acc : WorkerState × List OutMsg) (key : SectionKey) :
    WorkerState × List OutMsg :=
  if sectionStillExists w key then
    let st2 := { acc.1 with
      dirtySections := acc.1.dirtySections.filter (fun k2 => decide (k2 ≠ key)) }
    let msgs :=
      match mesher key with
      | .ok geom => [OutMsg.geometry key geom]
      | .error e => [OutMsg.generationError key e]
    (st2, acc.2 ++ msgs ++ [OutMsg.sectionFinished key])
  else
    (acc.1, acc.2 ++ [OutMsg.sectionFinished key])

/-- `processDirtySections()`: a no-op before `{version}`/`{blockStates}` or
with an empty queue; otherwise drain the snapshot of the queue once. -/
def processDirtySections (ws : WorkerState)
    (mesher : SectionKey → Except String Nat) : WorkerState × List OutMsg :=
  match ws.world, ws.blocksStates with
  | some w, some _ =>
      let sections := ws.dirtySections
      if sections.length = 0 then (ws, [])
      else sections.foldl (drainStep w mesher) (ws, [])
  | _, _ => (ws, [])

/-! ### `waitForChunksToRender` synchronization (`worldrenderer.js`) -/

/-- The renderer events that drive the outstanding set and the `update`
emitter: `setSectionDirty(pos, true)` adds the section key (and emits no
`update`), while a worker's `sectionFinished` message deletes the key and
then emits `update` (`worker.onmessage`). -/
inductive RenderEvent where
  | markDirty (k : SectionKey)
  | sectionFinished (k : SectionKey)
deriving DecidableEq, Repr

/-- The synchronization state: `sectionsOutstanding` plus the resolved flag
of each promise created by `waitForChunksToRender` (one entry per pending
caller, in registration order). -/
structure WaitState where
  outstanding : List SectionKey
  waiters : List Bool
deriving DecidableEq, Repr

/-- One event step.  On `sectionFinished` the key is deleted and every
registered update handler runs: a handler whose check
`sectionsOutstanding.size === 0` passes resolves its promise (and removes
itself — a resolved flag latches, a promise cannot resolve twice). -/
def WaitState.step (s : WaitState) : RenderEvent → WaitState
  | .markDirty k => { s with outstanding := insertKey k s.outstanding }
  | .sectionFinished k =>
      let out2 := removeKey k s.outstanding
      { outstanding := out2, waiters := s.waiters.map (fun w => w || out2.isEmpty) }

/-- Run a sequence of events. -/
def WaitState.run (s : WaitState) (evs : List RenderEvent) : WaitState :=
  evs.foldl WaitState.step s

/-- `waitForChunksToRender()`: resolve immediately when the outstanding set
is empty, else register a new unresolved waiter. -/
def WaitState.waitForChunksToRender (s : WaitState) : Bool × WaitState :=
  if s.outstanding.isEmpty then (true, s)
  else (false, { s with waiters := s.waiters ++ [false] })

/-- The resolution status after `evs` of one waiter that was registered
while `out` was outstanding. -/
def resolvedAfter (out : List SectionKey) : List RenderEvent → Bool
  | [] => false
  | .markDirty k :: rest => resolvedAfter (insertKey k out) rest
  | .sectionFinished k :: rest =>
      (removeKey k out).isEmpty || resolvedAfter (removeKey k out) rest

/-- The outstanding set after `evs`. -/
def outAfter (out : List SectionKey) : List RenderEvent → List SectionKey
  | [] => out
  | .markDirty k :: rest => outAfter (insertKey k out) rest
  | .sectionFinished k :: rest => outAfter (removeKey k out) rest

/-! ### Arithmetic facts about the JS `mod` helper -/

theorem tmod_neg_arg (x n : Int) : Int.tmod (-x) n = -(Int.tmod x n) := by
  rw [Int.tmod_def, Int.tmod_def, Int.neg_tdiv]
  ring

theorem neg_lt_tmod (x : Int) {n : Int} (h : 0 < n) : -n < Int.tmod x n := by
  rcases le_or_lt 0 x with hx | hx
  · have h0 : 0 ≤ Int.tmod x n := Int.tmod_nonneg n hx
    omega
  · have h1 : Int.tmod (-x) n < n := Int.tmod_lt_of_pos (-x) h
    rw [tmod_neg_arg] at h1
    omega

/-- For a positive worker count the JS double-`%` trick computes the true
(Euclidean) modulo. -/
theorem mod_eq_emod (x : Int) {n : Int} (h : 0 < n) : mod x n = Int.emod x n := by
  have hge : 0 ≤ Int.tmod x n + n := by
    have := neg_lt_tmod x h
    omega
  unfold mod
  rw [Int.tmod_eq_emod hge h.le]
  have hsplit : Int.tmod x n + n = Int.tmod x n + n * 1 := by ring
  rw [hsplit, Int.add_mul_emod_self_left, Int.tmod_def]
  have hsub : x - n * x.tdiv n = x + n * (-(x.tdiv n)) := by ring
  rw [hsub, Int.add_mul_emod_self_left]
  rfl

/-! ### LRUCache lemmas -/

theorem LRUCache.maxSize_applyOp {α} (c : LRUCache α) (op : LRUOp α) :
    (c.applyOp op).maxSize = c.maxSize := by
  cases op with
  | get k =>
      simp only [applyOp, LRUCache.get]
      cases h : c.cache.find? (fun e => e.1 == k) with
      | none => rfl
      | some e => cases e; rfl
  | set k v =>
      simp only [applyOp, LRUCache.set]
      split
      · rfl
      · split <;> rfl
  | del k => rfl
  | clear => rfl

theorem LRUCache.size_applyOp_le {α} (c : LRUCache α) (op : LRUOp α)
    (hN : 1 ≤ c.maxSize) (h : c.size ≤ c.maxSize) :
    (c.applyOp op).size ≤ c.maxSize := by
  cases op with
  | get k =>
      simp only [applyOp, LRUCache.get]
      cases hf : c.cache.find? (fun e => e.1 == k) with
      | none => exact h
      | some e =>
          cases e with
          | mk k1 v =>
            have hmem := List.mem_of_find?_eq_some hf
            have hp := List.find?_some hf
            simp only [] at hp
            have hlt : (c.cache.filter (fun e => !(e.1 == k))).length < c.cache.length := by
              rw [List.length_filter_lt_length_iff_exists]
              exact ⟨(k1, v), hmem, by simp [hp]⟩
            simp only [LRUCache.size, List.length_append, List.length_cons,
              List.length_nil] at h ⊢
            omega
  | set k v =>
      simp only [applyOp, LRUCache.set]
      split
      · rename_i hf
        rw [Option.isSome_iff_exists] at hf
        obtain ⟨e, hf⟩ := hf
        have hmem := List.mem_of_find?_eq_some hf
        have hp := List.find?_some hf
        have hlt : (c.cache.filter (fun e => !(e.1 == k))).length < c.cache.length := by
          rw [List.length_filter_lt_length_iff_exists]
          exact ⟨e, hmem, by simp [hp]⟩
        simp only [LRUCache.size, List.length_append, List.length_cons,
          List.length_nil] at h ⊢
        omega
      · split
        · rename_i hcap
          have hlen : 1 ≤ c.cache.length := le_trans hN hcap
          have htail : c.cache.tail.length = c.cache.length - 1 := List.length_tail _
          simp only [LRUCache.size, List.length_append, List.length_cons,
            List.length_nil] at h ⊢
          omega
        · rename_i hcap
          push_neg at hcap
          simp only [LRUCache.size, List.length_append, List.length_cons,
            List.length_nil] at h ⊢
          omega
  | del k =>
      have := List.length_filter_le (fun e : Nat × α => !(e.1 == k)) c.cache
      simp only [applyOp, LRUCache.deleteKey, LRUCache.size] at h ⊢
      omega
  | clear =>
      simp [applyOp, LRUCache.clear, LRUCache.size]

theorem LRUCache.size_run_le {α} (ops : List (LRUOp α)) (c : LRUCache α)
    (hN : 1 ≤ c.maxSize) (h : c.size ≤ c.maxSize) :
    (c.run ops).size ≤ (c.run ops).maxSize := by
  induction ops generalizing c with
  | nil => exact h
  | cons op rest ih =>
      have hmax := LRUCache.maxSize_applyOp c op
      have hstep := LRUCache.size_applyOp_le c op hN h
      simpa [LRUCache.run] using
        ih (c.applyOp op) (by omega) (by omega)

theorem LRUCache.find?_eq_none_of_fresh {α} (c : LRUCache α) (k : Nat)
    (h : k ∉ c.keys) : c.cache.find? (fun e => e.1 == k) = none := by
  rw [List.find?_eq_none]
  intro e he hbeq
  apply h
  have : e.1 = k := by simpa using hbeq
  exact this ▸ List.mem_map_of_mem Prod.fst he

theorem LRUCache.set_fresh_below_cap {α} (c : LRUCache α) (k : Nat) (v : α)
    (hfresh : k ∉ c.keys) (hroom : c.cache.length < c.maxSize) :
    (c.set k v).cache = c.cache ++ [(k, v)] := by
  simp only [LRUCache.set, LRUCache.find?_eq_none_of_fresh c k hfresh,
    Option.isSome_none, Bool.false_eq_true, if_false]
  rw [if_neg]
  omega

theorem LRUCache.set_fresh_at_cap {α} (c : LRUCache α) (k : Nat) (v : α)
    (hfresh : k ∉ c.keys) (hcap : c.cache.length ≥ c.maxSize) :
    (c.set k v).cache = c.cache.tail ++ [(k, v)] := by
  simp only [LRUCache.set, LRUCache.find?_eq_none_of_fresh c k hfresh,
    Option.isSome_none, Bool.false_eq_true, if_false]
  rw [if_pos hcap]

theorem LRUCache.run_fresh_below_cap {α} (v : α) :
    ∀ (ks : List Nat) (c : LRUCache α), ks.Nodup → (∀ k ∈ ks, k ∉ c.keys) →
      c.cache.length + ks.length ≤ c.maxSize →
      (c.run (ks.map (fun k => LRUOp.set k v))).cache
        = c.cache ++ ks.map (fun k => (k, v)) := by
  intro ks
  induction ks with
  | nil => intro c _ _ _; simp [LRUCache.run]
  | cons k rest ih =>
      intro c hnd hfresh hlen
      simp only [List.length_cons] at hlen
      have hset := LRUCache.set_fresh_below_cap c k v (hfresh k (by simp))
        (by omega)
      have hkeys : (c.set k v).keys = c.keys ++ [k] := by
        simp [LRUCache.keys, hset]
      have hmax : (c.set k v).maxSize = c.maxSize := by
        simpa [LRUCache.applyOp] using LRUCache.maxSize_applyOp c (LRUOp.set k v)
      have hnotin : k ∉ rest := (List.nodup_cons.mp hnd).1
      have hrest := ih (c.set k v) (List.nodup_cons.mp hnd).2
        (by
          intro k2 hk2
          rw [hkeys]
          simp only [List.mem_append, List.mem_singleton]
          rintro (h2 | rfl)
          · exact hfresh k2 (by simp [hk2]) h2
          · exact hnotin hk2)
        (by
          rw [hmax, hset]
          simp only [List.length_append, List.length_cons, List.length_nil]
          omega)
      have hstep : c.run ((k :: rest).map (fun k2 => LRUOp.set k2 v))
          = (c.set k v).run (rest.map (fun k2 => LRUOp.set k2 v)) := by
        simp [LRUCache.run, LRUCache.applyOp]
      rw [hstep, hrest, hset]
      simp

theorem map_fst_filter_key {α} (l : List (Nat × α)) (k : Nat) :
    (l.filter (fun e => !(e.1 == k))).map Prod.fst
      = (l.map Prod.fst).filter (fun a => !(a == k)) := by
  induction l with
  | nil => rfl
  | cons e rest ih =>
      by_cases hk : e.1 = k
      · simp [hk, ih]
      · simp [List.filter_cons, hk, ih]

theorem keys_erase_of_nodup (l : List Nat) (k : Nat) (hnd : l.Nodup) :
    l.filter (fun a => !(a == k)) = l.erase k := by
  rw [List.Nodup.erase_eq_filter hnd]
  rfl

theorem LRUCache.keys_get_touch {α} (c : LRUCache α) (k : Nat)
    (hnd : c.keys.Nodup) (hk : k ∈ c.keys) :
    (c.get k).2.keys = c.keys.erase k ++ [k] := by
  have hsome : (c.cache.find? (fun e => e.1 == k)).isSome = true := by
    rw [List.find?_isSome]
    obtain ⟨e, he, hfst⟩ := List.mem_map.mp hk
    exact ⟨e, he, by simp [hfst]⟩
  cases hf : c.cache.find? (fun e => e.1 == k) with
  | none => rw [hf] at hsome; simp at hsome
  | some e =>
      cases e with
      | mk k1 v =>
          simp only [LRUCache.get, hf, LRUCache.keys, List.map_append,
            List.map_cons, List.map_nil]
          rw [map_fst_filter_key,
            keys_erase_of_nodup (List.map Prod.fst c.cache) k hnd]

theorem LRUCache.keys_set_touch {α} (c : LRUCache α) (k : Nat) (v : α)
    (hnd : c.keys.Nodup) (hk : k ∈ c.keys) :
    (c.set k v).keys = c.keys.erase k ++ [k] := by
  have hsome : (c.cache.find? (fun e => e.1 == k)).isSome = true := by
    rw [List.find?_isSome]
    obtain ⟨e, he, hfst⟩ := List.mem_map.mp hk
    exact ⟨e, he, by simp [hfst]⟩
  simp only [LRUCache.set, hsome, if_true, LRUCache.keys, List.map_append,
    List.map_cons, List.map_nil]
  rw [map_fst_filter_key,
    keys_erase_of_nodup (List.map Prod.fst c.cache) k hnd]

theorem LRUCache.maxSize_run {α} (ops : List (LRUOp α)) :
    ∀ c : LRUCache α, (c.run ops).maxSize = c.maxSize := by
  induction ops with
  | nil => intro c; rfl
  | cons op rest ih =>
      intro c
      have hstep : c.run (op :: rest) = (c.applyOp op).run rest := by
        simp [LRUCache.run]
      rw [hstep, ih, LRUCache.maxSize_applyOp]

theorem LRUCache.keys_run_capacity_plus_one {α} (v : α) (N : Nat) (hN : 1 ≤ N)
    (ks : List Nat) (hnd : ks.Nodup) (hlen : ks.length = N + 1) :
    ((LRUCache.empty α N).run (ks.map (fun k => LRUOp.set k v))).keys = ks.tail := by
  obtain ⟨klast, hkl⟩ : ∃ a, ks.drop N = [a] := by
    rw [← List.length_eq_one, List.length_drop]
    omega
  have hsplit : ks.take N ++ [klast] = ks := by
    rw [← hkl]; exact List.take_append_drop N ks
  have htknd : (ks.take N).Nodup := (List.take_sublist N ks).nodup hnd
  have htklen : (ks.take N).length = N := by
    rw [List.length_take]
    omega
  have hklast_fresh : klast ∉ ks.take N := by
    have := hsplit ▸ hnd
    rcases List.nodup_append.mp this with ⟨_, _, hdisj⟩
    intro hmem
    exact hdisj hmem (by simp)
  have hrun1 := LRUCache.run_fresh_below_cap v (ks.take N) (LRUCache.empty α N)
    htknd (by intro k2 _; simp [LRUCache.empty, LRUCache.keys])
    (by simp [LRUCache.empty, htklen])
  set c1 := (LRUCache.empty α N).run ((ks.take N).map (fun k => LRUOp.set k v)) with hc1
  have hc1cache : c1.cache = (ks.take N).map (fun k => (k, v)) := by
    rw [hrun1]; simp [LRUCache.empty]
  have hmapfst : ∀ l : List Nat, (l.map (fun k => (k, v))).map Prod.fst = l := by
    intro l
    induction l with
    | nil => rfl
    | cons a t ih => simp [ih]
  have hc1keys : c1.keys = ks.take N := by
    show c1.cache.map Prod.fst = _
    rw [hc1cache]
    exact hmapfst _
  have hc1max : c1.maxSize = N := by
    rw [hc1, LRUCache.maxSize_run]
    rfl
  have hsetlast := LRUCache.set_fresh_at_cap c1 klast v
    (by rw [hc1keys]; exact hklast_fresh)
    (by
      rw [hc1cache, hc1max]
      simp only [List.length_map]
      omega)
  have hrunsplit : (LRUCache.empty α N).run (ks.map (fun k => LRUOp.set k v))
      = c1.set klast v := by
    rw [← hsplit]
    simp only [List.map_append, List.map_cons, List.map_nil]
    rw [LRUCache.run, List.foldl_append]
    rfl
  rw [hrunsplit]
  have : (c1.set klast v).keys = (ks.take N).tail ++ [klast] := by
    show (c1.set klast v).cache.map Prod.fst = _
    rw [hsetlast, hc1cache, List.map_append, ← List.map_tail, hmapfst]
    rfl
  rw [this]
  have htail : ks.tail = (ks.take N).tail ++ [klast] := by
    conv_lhs => rw [← hsplit]
    rw [List.tail_append]
    have : (ks.take N).isEmpty = false := by
      cases htk : ks.take N with
      | nil => rw [htk] at htklen; simp at htklen; omega
      | cons a t => rfl
    rw [this]
    simp
  rw [htail]

/-! ### Claim C4: deterministic worker routing -/

/-- C4: for every block position (negative coordinates included) and every
worker count `N > 0`, the worker index computed by
`WorldRenderer.setSectionDirty` equals the true (non-negative) modulo
`mod(floor(x/16)+floor(y/16)+floor(z/16), N)`, lies in `[0, N)`, and is a
pure function of the coordinates and `N`. -/
theorem C4_worker_routing (pos : Vec3) (N : Nat) (hN : 0 < N) :
    workerIndexFor pos N
        = Int.emod (floorDiv16 pos.x + floorDiv16 pos.y + floorDiv16 pos.z) (N : Int)
      ∧ 0 ≤ workerIndexFor pos N
      ∧ workerIndexFor pos N < (N : Int)
      ∧ ∀ q : Vec3, q.x = pos.x → q.y = pos.y → q.z = pos.z →
          workerIndexFor q N = workerIndexFor pos N := by
  have hNi : (0 : Int) < (N : Int) := by exact_mod_cast hN
  have hmod := mod_eq_emod
    (floorDiv16 pos.x + floorDiv16 pos.y + floorDiv16 pos.z) hNi
  refine ⟨hmod, ?_, ?_, ?_⟩
  · rw [workerIndexFor, hmod]
    exact Int.emod_nonneg _ (by omega)
  · rw [workerIndexFor, hmod]
    exact Int.emod_lt_of_pos _ hNi
  · intro q hx hy hz
    cases q
    cases pos
    simp only [] at hx hy hz
    subst hx
    subst hy
    subst hz
    rfl

/-- Witness for C4 at the concrete section position `(-1, -1, -1)` with four
workers: each floored quotient is `-1`, the sum is `-3`, and the true modulo
yields worker `1`. -/
theorem C4_worker_routing_witness :
    0 < 4 ∧ workerIndexFor ⟨-1, -1, -1⟩ 4 = 1 := by
  refine ⟨by decide, ?_⟩
  have h := (C4_worker_routing ⟨-1, -1, -1⟩ 4 (by decide)).1
  rw [h]
  decide

/-! ### Claim C3: LRU capacity and eviction -/

/-- C3 counterexample: for the configured capacity `N = 0` the claim "after
every operation the cache size never exceeds N" fails: `set` on an already
"full" empty cache deletes the (undefined) first key of the empty `Map` and
then inserts, so the size reaches `1 > 0`. -/
theorem C3_counterexample :
    ¬ (((LRUCache.empty Nat 0).set 1 1).size ≤ (LRUCache.empty Nat 0).maxSize) := by
  decide

/-- C3 (amended: capacity at least 1): for every capacity `N ≥ 1`,
(i) the size of the cache never exceeds `N` after any sequence of
`get`/`set`/`delete`/`clear` operations from the empty cache;
(ii) inserting `N + 1` distinct keys into the empty cache evicts exactly the
least-recently-touched key — the surviving keys are precisely the last `N`
inserted, in age order;
(iii) `get` of a present key marks it most-recent; and
(iv) `set` of a present key marks it most-recent. -/
theorem C3_lru_amended (N : Nat) (hN : 1 ≤ N) :
    (∀ ops : List (LRUOp Nat), ((LRUCache.empty Nat N).run ops).size ≤ N)
      ∧ (∀ ks : List Nat, ks.Nodup → ks.length = N + 1 →
          ((LRUCache.empty Nat N).run (ks.map (fun k => LRUOp.set k 0))).keys
            = ks.tail)
      ∧ (∀ (c : LRUCache Nat) (k : Nat), c.keys.Nodup → k ∈ c.keys →
          (c.get k).2.keys = c.keys.erase k ++ [k])
      ∧ (∀ (c : LRUCache Nat) (k : Nat) (v : Nat), c.keys.Nodup → k ∈ c.keys →
          (c.set k v).keys = c.keys.erase k ++ [k]) := by
  refine ⟨?_, ?_, ?_, ?_⟩
  · intro ops
    have h := LRUCache.size_run_le ops (LRUCache.empty Nat N) hN
      (by simp [LRUCache.empty, LRUCache.size])
    rwa [LRUCache.maxSize_run] at h
  · intro ks hnd hlen
    exact LRUCache.keys_run_capacity_plus_one 0 N hN ks hnd hlen
  · intro c k hnd hk
    exact LRUCache.keys_get_touch c k hnd hk
  · intro c k v hnd hk
    exact LRUCache.keys_set_touch c k v hnd hk

/-- Witness for C3 at capacity 2: inserting the three distinct keys
10, 20, 30 leaves exactly the keys 20, 30 (key 10, the least recently
touched, was evicted), and the final size is within capacity. -/
theorem C3_lru_amended_witness :
    1 ≤ 2
      ∧ ((LRUCache.empty Nat 2).run
          ([10, 20, 30].map (fun k => LRUOp.set k 0))).keys = [20, 30] := by
  refine ⟨by decide, ?_⟩
  have h := (C3_lru_amended 2 (by decide)).2.1 [10, 20, 30] (by decide) (by decide)
  exact h

/-! ### setSectionDirty lemmas -/

theorem mem_insertKey (k a : SectionKey) (l : List SectionKey) :
    k ∈ insertKey a l ↔ k = a ∨ k ∈ l := by
  unfold insertKey
  split
  · rename_i hmem
    constructor
    · exact fun h => Or.inr h
    · rintro (rfl | h)
      · exact hmem
      · exact h
  · simp [or_comm]

theorem mem_insertKey_self (a : SectionKey) (l : List SectionKey) :
    a ∈ insertKey a l := by
  rw [mem_insertKey]
  exact Or.inl rfl

theorem RendererState.setSectionDirty_active (s : RendererState) (pos : Vec3)
    (v : Bool) : ((s.setSectionDirty pos v).1).active = s.active := by
  unfold RendererState.setSectionDirty
  split
  · rfl
  · dsimp only
    split
    · rfl
    · split <;> rfl

theorem RendererState.setSectionDirty_numWorkers (s : RendererState) (pos : Vec3)
    (v : Bool) : ((s.setSectionDirty pos v).1).numWorkers = s.numWorkers := by
  unfold RendererState.setSectionDirty
  split
  · rfl
  · dsimp only
    split
    · rfl
    · split <;> rfl

/-- Marking a section dirty (value `true`) in an active renderer leaves the
pending set equal to `insertKey key pending` — whether the dedup guard fired
(key already pending) or not. -/
theorem RendererState.setSectionDirty_pending (s : RendererState) (pos : Vec3)
    (hact : s.active = true) (hw : s.numWorkers ≠ 0) :
    ((s.setSectionDirty pos true).1).pendingDirtySections
      = insertKey (sectionKeyOf pos) s.pendingDirtySections := by
  unfold RendererState.setSectionDirty
  rw [if_neg (by simp [hact, hw])]
  dsimp only
  split
  · rename_i hmem
    simp only [true_and] at hmem
    unfold insertKey
    rw [if_pos hmem]
  · rename_i hmem
    simp only [true_and] at hmem
    simp

/-! ### Claim C10: inactive or workerless renderer ignores dirty marks -/

/-- C10: when the renderer is not active (constructor state, after
`resetWorld`, after `dispose`) or its worker list is empty,
`setSectionDirty` is a complete no-op for every position and flag: no
message is dispatched and the state (outstanding set, pending set and all
other fields) is unchanged. -/
theorem C10_inactive_noop (s : RendererState) (pos : Vec3) (value : Bool)
    (h : s.active = false ∨ s.numWorkers = 0) :
    s.setSectionDirty pos value = (s, []) := by
  unfold RendererState.setSectionDirty
  rcases h with h | h <;> simp [h]

/-- Witness for C10: a concrete inactive renderer state with four workers
ignores a `setSectionDirty` call. -/
theorem C10_inactive_noop_witness :
    ((⟨false, true, 4, [], [], [], [], some ⟨7, [2]⟩, some 2⟩ : RendererState).active = false
        ∨ (⟨false, true, 4, [], [], [], [], some ⟨7, [2]⟩, some 2⟩ : RendererState).numWorkers = 0)
      ∧ (⟨false, true, 4, [], [], [], [], some ⟨7, [2]⟩, some 2⟩ : RendererState).setSectionDirty ⟨1, 2, 3⟩ true
          = (⟨false, true, 4, [], [], [], [], some ⟨7, [2]⟩, some 2⟩, []) :=
  ⟨Or.inl rfl,
    C10_inactive_noop ⟨false, true, 4, [], [], [], [], some ⟨7, [2]⟩, some 2⟩ ⟨1, 2, 3⟩ true (Or.inl rfl)⟩

/-! ### Claim C5: frame-scoped dedup of dirty marks -/

/-- C5: two `setSectionDirty(pos, true)` calls for positions in the same
section, with no `clearPendingDirtySections` in between and the key not yet
pending, dispatch exactly one `dirty` message — the first call sends it to
the section's assigned worker, the second call sends nothing — and
`clearPendingDirtySections` (invoked once per frame by `Viewer.update`)
empties the pending marker set. -/
theorem RendererState.setSectionDirty_dedup_noop (s : RendererState) (pos : Vec3)
    (hact : s.active = true) (hw : s.numWorkers ≠ 0)
    (hmem : sectionKeyOf pos ∈ s.pendingDirtySections) :
    s.setSectionDirty pos true = (s, []) := by
  unfold RendererState.setSectionDirty
  rw [if_neg (by simp [hact, hw])]
  dsimp only
  rw [if_pos ⟨rfl, hmem⟩]

theorem C5_frame_dedup (s : RendererState) (p1 p2 : Vec3)
    (hact : s.active = true) (hw : 0 < s.numWorkers)
    (hsame : sectionKeyOf p1 = sectionKeyOf p2)
    (hfresh : sectionKeyOf p1 ∉ s.pendingDirtySections) :
    (s.setSectionDirty p1 true).2
        = [⟨workerIndexFor p1 s.numWorkers, .dirty p1.x p1.y p1.z true⟩]
      ∧ (((s.setSectionDirty p1 true).1).setSectionDirty p2 true).2 = []
      ∧ ∀ s2 : RendererState,
          s2.clearPendingDirtySections.pendingDirtySections = [] := by
  have hw' : s.numWorkers ≠ 0 := by omega
  refine ⟨?_, ?_, fun s2 => rfl⟩
  · unfold RendererState.setSectionDirty
    rw [if_neg (by simp [hact, hw'])]
    dsimp only
    rw [if_neg (by simp [hfresh])]
    rw [if_pos rfl]
  · have ha1 : (s.setSectionDirty p1 true).1.active = true := by
      rw [RendererState.setSectionDirty_active]
      exact hact
    have hw1 : (s.setSectionDirty p1 true).1.numWorkers ≠ 0 := by
      rw [RendererState.setSectionDirty_numWorkers]
      exact hw'
    have hp2 : sectionKeyOf p2 ∈ (s.setSectionDirty p1 true).1.pendingDirtySections := by
      rw [RendererState.setSectionDirty_pending s p1 hact hw', ← hsame]
      exact mem_insertKey_self _ _
    rw [RendererState.setSectionDirty_dedup_noop _ p2 ha1 hw1 hp2]

/-- Witness for C5: in a concrete active renderer with 4 workers, marking
positions `(0,0,0)` and `(15,15,15)` (same section) dirty back to back
dispatches exactly one message, and the per-frame clear empties the pending
set. -/
theorem C5_frame_dedup_witness :
    ((⟨true, true, 4, [], [], [], [], some ⟨7, [2]⟩, some 2⟩ : RendererState).active = true
        ∧ 0 < (⟨true, true, 4, [], [], [], [], some ⟨7, [2]⟩, some 2⟩ : RendererState).numWorkers
        ∧ sectionKeyOf ⟨0, 0, 0⟩ = sectionKeyOf ⟨15, 15, 15⟩)
      ∧ ((⟨true, true, 4, [], [], [], [], some ⟨7, [2]⟩, some 2⟩ : RendererState).setSectionDirty ⟨0, 0, 0⟩ true).2
          = [⟨workerIndexFor ⟨0, 0, 0⟩ 4, .dirty 0 0 0 true⟩]
        ∧ ((((⟨true, true, 4, [], [], [], [], some ⟨7, [2]⟩, some 2⟩ : RendererState).setSectionDirty ⟨0, 0, 0⟩ true).1).setSectionDirty ⟨15, 15, 15⟩ true).2
          = [] := by
  refine ⟨⟨rfl, by decide, by decide⟩, ?_⟩
  have h := C5_frame_dedup ⟨true, true, 4, [], [], [], [], some ⟨7, [2]⟩, some 2⟩
    ⟨0, 0, 0⟩ ⟨15, 15, 15⟩ rfl (by decide) (by decide) (by simp)
  exact ⟨h.1, h.2.1⟩

/-! ### Claim C6: neighbor propagation on single-block mutation -/

theorem mem_ite_insert (c : Prop) [Decidable c] (a k : SectionKey)
    (l : List SectionKey) :
    (k ∈ if c then insertKey a l else l) ↔ ((c ∧ k = a) ∨ k ∈ l) := by
  split
  · rename_i hc
    rw [mem_insertKey]
    tauto
  · rename_i hc
    tauto

theorem markDirtyAccum_fold (qs : List Vec3) :
    ∀ r : RendererState × List Dispatch, r.1.active = true → r.1.numWorkers ≠ 0 →
      ((qs.foldl RendererState.markDirtyAccum r).1).pendingDirtySections
          = qs.foldl (fun l q => insertKey (sectionKeyOf q) l) r.1.pendingDirtySections
        ∧ ((qs.foldl RendererState.markDirtyAccum r).1).active = true
        ∧ ((qs.foldl RendererState.markDirtyAccum r).1).numWorkers = r.1.numWorkers := by
  induction qs with
  | nil => intro r hact hw; exact ⟨rfl, hact, rfl⟩
  | cons q rest ih =>
      intro r hact hw
      have hstep1 : (RendererState.markDirtyAccum r q).1 = (r.1.setSectionDirty q).1 := rfl
      have hact2 : (RendererState.markDirtyAccum r q).1.active = true := by
        rw [hstep1, RendererState.setSectionDirty_active]
        exact hact
      have hw2 : (RendererState.markDirtyAccum r q).1.numWorkers = r.1.numWorkers := by
        rw [hstep1, RendererState.setSectionDirty_numWorkers]
      obtain ⟨hp, ha, hn⟩ := ih (RendererState.markDirtyAccum r q) hact2 (by omega)
      refine ⟨?_, ?_, ?_⟩
      · rw [List.foldl_cons, hp, hstep1,
          RendererState.setSectionDirty_pending r.1 q hact hw]
        rfl
      · rw [List.foldl_cons]
        exact ha
      · rw [List.foldl_cons, hn, hw2]

theorem mem_foldl_insertKey (qs : List Vec3) :
    ∀ (l : List SectionKey) (k : SectionKey),
      k ∈ qs.foldl (fun l q => insertKey (sectionKeyOf q) l) l
        ↔ k ∈ l ∨ k ∈ qs.map sectionKeyOf := by
  induction qs with
  | nil => intro l k; simp
  | cons q rest ih =>
      intro l k
      rw [List.foldl_cons, ih, mem_insertKey]
      simp only [List.map_cons, List.mem_cons]
      tauto

theorem mem_map_ite_singleton (c : Prop) [Decidable c] (q : Vec3)
    (k : SectionKey) :
    (k ∈ ((if c then [q] else []).map sectionKeyOf)) ↔ (c ∧ k = sectionKeyOf q) := by
  split
  · rename_i hc
    simp [hc]
  · rename_i hc
    simp [hc]

/-- C6: a single-block mutation at `pos` marks pending exactly the block's
own section plus those face-neighbor sections whose axis-local coordinate
(true modulo 16) is 0 or 15. -/
theorem C6_neighbor_propagation (s : RendererState) (pos : Vec3) (stateId : Nat)
    (hact : s.active = true) (hw : 0 < s.numWorkers)
    (hpend : s.pendingDirtySections = []) :
    ∀ k : SectionKey,
      k ∈ ((s.setBlockStateId pos stateId).1).pendingDirtySections ↔
        (k = sectionKeyOf pos
          ∨ (jsAnd15 pos.x = 0 ∧ k = sectionKeyOf (pos.offset (-16) 0 0))
          ∨ (jsAnd15 pos.x = 15 ∧ k = sectionKeyOf (pos.offset 16 0 0))
          ∨ (jsAnd15 pos.y = 0 ∧ k = sectionKeyOf (pos.offset 0 (-16) 0))
          ∨ (jsAnd15 pos.y = 15 ∧ k = sectionKeyOf (pos.offset 0 16 0))
          ∨ (jsAnd15 pos.z = 0 ∧ k = sectionKeyOf (pos.offset 0 0 (-16)))
          ∨ (jsAnd15 pos.z = 15 ∧ k = sectionKeyOf (pos.offset 0 0 16))) := by
  intro k
  have hw' : s.numWorkers ≠ 0 := by omega
  unfold RendererState.setBlockStateId
  dsimp only
  have ha1 : (s.setSectionDirty pos).1.active = true := by
    rw [RendererState.setSectionDirty_active]
    exact hact
  have hw1 : (s.setSectionDirty pos).1.numWorkers ≠ 0 := by
    rw [RendererState.setSectionDirty_numWorkers]
    exact hw'
  obtain ⟨hp, _, _⟩ := markDirtyAccum_fold (boundaryNeighborTargets pos)
    ((s.setSectionDirty pos).1,
      (List.range s.numWorkers).map
        (fun i => (⟨(i : Int), .blockUpdate pos.x pos.y pos.z stateId⟩ : Dispatch))
        ++ (s.setSectionDirty pos).2) ha1 hw1
  rw [hp, mem_foldl_insertKey]
  dsimp only
  rw [RendererState.setSectionDirty_pending s pos hact hw', hpend, mem_insertKey]
  unfold boundaryNeighborTargets
  simp only [List.map_append, List.mem_append, mem_map_ite_singleton,
    List.not_mem_nil, or_false]
  simp only [or_assoc]

/-- Witness for C6 at the spec's scenario: mutating the block `(15, 5, 0)`
(local coordinate `(15, 5, 0)`) in a fresh active renderer marks both its
own section `(0,0,0)` and the `x+16` neighbor section pending. -/
theorem C6_neighbor_propagation_witness :
    ((⟨true, true, 4, [], [], [], [], some ⟨7, [2]⟩, some 2⟩ : RendererState).active = true
        ∧ 0 < (⟨true, true, 4, [], [], [], [], some ⟨7, [2]⟩, some 2⟩ : RendererState).numWorkers
        ∧ (⟨true, true, 4, [], [], [], [], some ⟨7, [2]⟩, some 2⟩ : RendererState).pendingDirtySections = [])
      ∧ sectionKeyOf ⟨15, 5, 0⟩
          ∈ (((⟨true, true, 4, [], [], [], [], some ⟨7, [2]⟩, some 2⟩ : RendererState).setBlockStateId ⟨15, 5, 0⟩ 3).1).pendingDirtySections
      ∧ sectionKeyOf ((⟨15, 5, 0⟩ : Vec3).offset 16 0 0)
          ∈ (((⟨true, true, 4, [], [], [], [], some ⟨7, [2]⟩, some 2⟩ : RendererState).setBlockStateId ⟨15, 5, 0⟩ 3).1).pendingDirtySections := by
  refine ⟨⟨rfl, by decide, rfl⟩, ?_, ?_⟩
  · exact (C6_neighbor_propagation
      ⟨true, true, 4, [], [], [], [], some ⟨7, [2]⟩, some 2⟩ ⟨15, 5, 0⟩ 3
      rfl (by decide) rfl (sectionKeyOf ⟨15, 5, 0⟩)).mpr (Or.inl rfl)
  · exact (C6_neighbor_propagation
      ⟨true, true, 4, [], [], [], [], some ⟨7, [2]⟩, some 2⟩ ⟨15, 5, 0⟩ 3
      rfl (by decide) rfl
      (sectionKeyOf ((⟨15, 5, 0⟩ : Vec3).offset 16 0 0))).mpr
      (Or.inr (Or.inr (Or.inl ⟨by decide, rfl⟩)))

mutual

theorem dispose3_no_texture (o : Object3D) :
    ∀ a ∈ dispose3 o false, a.isTextureDispose = false := by
  cases o with
  | node g m children =>
      intro a ha
      simp only [dispose3, List.mem_append] at ha
      rcases ha with (ha | ha) | ha
      · exact dispose3List_no_texture children a ha
      · cases g with
        | some gid =>
            simp only [List.mem_singleton] at ha
            subst ha
            rfl
        | none => simp at ha
      · cases m with
        | some mat =>
            simp only [Bool.false_eq_true, if_false, List.mem_singleton] at ha
            subst ha
            rfl
        | none => simp at ha

theorem dispose3List_no_texture (l : Object3DList) :
    ∀ a ∈ dispose3List l false, a.isTextureDispose = false := by
  cases l with
  | nil => intro a ha; simp [dispose3List] at ha
  | cons c rest =>
      intro a ha
      simp only [dispose3List, List.mem_append] at ha
      rcases ha with ha | ha
      · exact dispose3_no_texture c a ha
      · exact dispose3List_no_texture rest a ha

end

theorem dispose3_material_member (o : Object3D) (mat : MaterialObj)
    (h : o.materialRef = some mat) :
    DisposeAction.material mat.id ∈ dispose3 o false := by
  cases o with
  | node g m children =>
      simp only [Object3D.materialRef] at h
      subst h
      simp [dispose3]

theorem handleGeometry_no_texture (s : RendererState) (key : SectionKey)
    (g : Nat) : ∀ a ∈ (s.handleGeometry key g).2, a.isTextureDispose = false := by
  unfold RendererState.handleGeometry
  cases hm : lookupMesh key s.sectionMeshs with
  | some mesh =>
      dsimp only
      split <;> intro a ha <;> exact dispose3_no_texture mesh a ha
  | none =>
      dsimp only
      split <;> intro a ha <;> simp at ha

theorem handleGeometry_disposes_replaced_material (s : RendererState)
    (key : SectionKey) (g : Nat) (mesh : Object3D) (mat : MaterialObj)
    (hm : lookupMesh key s.sectionMeshs = some mesh)
    (hmat : mesh.materialRef = some mat) :
    DisposeAction.material mat.id ∈ (s.handleGeometry key g).2 := by
  unfold RendererState.handleGeometry
  rw [hm]
  dsimp only
  split <;> exact dispose3_material_member mesh mat hmat

theorem removeColumnLoop_no_texture (x z : Int) (ys : List Int) :
    ∀ acc : RendererState × List Dispatch × List DisposeAction,
      (∀ a ∈ acc.2.2, a.isTextureDispose = false) →
      ∀ a ∈ (ys.foldl
          (fun acc y =>
            let r := acc.1.setSectionDirty ⟨x, y, z⟩ false
            let key : SectionKey := (x, y, z)
            let meshActs :=
              match lookupMesh key r.1.sectionMeshs with
              | some mesh => dispose3 mesh false
              | none => []
            ({ r.1 with sectionMeshs := removeMesh key r.1.sectionMeshs },
              acc.2.1 ++ r.2, acc.2.2 ++ meshActs)) acc).2.2,
        a.isTextureDispose = false := by
  induction ys with
  | nil => intro acc hbase a ha; exact hbase a ha
  | cons y rest ih =>
      intro acc hbase a ha
      rw [List.foldl_cons] at ha
      refine ih _ ?_ a ha
      intro a2 ha2
      dsimp only at ha2
      rw [List.mem_append] at ha2
      rcases ha2 with ha2 | ha2
      · exact hbase a2 ha2
      · revert ha2
        cases hml : lookupMesh (x, y, z)
            ((acc.1.setSectionDirty ⟨x, y, z⟩ false).1).sectionMeshs with
        | none => intro ha2; simp at ha2
        | some mesh => intro ha2; exact dispose3_no_texture mesh a2 ha2

theorem removeColumn_no_texture (s : RendererState) (x z : Int) :
    ∀ a ∈ (s.removeColumn x z).2.2, a.isTextureDispose = false := by
  unfold RendererState.removeColumn
  dsimp only
  exact removeColumnLoop_no_texture x z sectionYs _ (by intro a ha; simp at ha)

theorem resetWorld_no_texture (s : RendererState) :
    ∀ a ∈ s.resetWorld.2.2, a.isTextureDispose = false := by
  unfold RendererState.resetWorld
  dsimp only
  intro a ha
  rw [List.mem_flatten] at ha
  obtain ⟨l, hl, hal⟩ := ha
  rw [List.mem_map] at hl
  obtain ⟨e, _, rfl⟩ := hl
  exact dispose3_no_texture e.2 a hal

theorem dispose_releases_texture (s : RendererState) (t : Nat)
    (h : s.currentTexture = some t) :
    DisposeAction.texture t ∈ s.dispose.2 := by
  unfold RendererState.dispose
  dsimp only
  rw [h]
  simp [disposeTextureAction]

/-- C1 counterexample: in a renderer whose shared material has id 7, the
per-mesh cleanup of the replace path of `_handleGeometry` — `dispose3(mesh,
{ disposeTextures: false })` — emits `material.dispose()` on that shared
material: the claim "the shared material is never disposed by per-mesh
cleanup" is false. -/
theorem C1_counterexample :
    DisposeAction.material 7 ∈
      ((⟨true, true, 4, [(0, 0)], [], [],
          [((0, 0, 0), Object3D.node (some 5) (some ⟨7, [2]⟩) Object3DList.nil)],
          some ⟨7, [2]⟩, some 2⟩ : RendererState).handleGeometry (0, 0, 0) 9).2 := by
  decide

/-- C1 (amended): no per-mesh cleanup path (mesh replacement in
`_handleGeometry`, column unload in `removeColumn`, world reset in
`resetWorld`) ever releases a texture — in particular the shared texture —
and the shared texture is released only by coordinator-level teardown
(`dispose`) or the explicit swap in `updateTexturesData`; however, per-mesh
cleanup does invoke `dispose()` on the shared material itself (the replace
path disposes the replaced mesh's material, which is the coordinator's
shared material). -/
theorem C1_shared_resources_amended :
    (∀ (s : RendererState) (key : SectionKey) (g : Nat),
        ∀ a ∈ (s.handleGeometry key g).2, a.isTextureDispose = false)
      ∧ (∀ (s : RendererState) (x z : Int),
          ∀ a ∈ (s.removeColumn x z).2.2, a.isTextureDispose = false)
      ∧ (∀ s : RendererState, ∀ a ∈ s.resetWorld.2.2, a.isTextureDispose = false)
      ∧ (∀ (s : RendererState) (key : SectionKey) (g : Nat) (mesh : Object3D)
            (mat : MaterialObj),
          lookupMesh key s.sectionMeshs = some mesh → mesh.materialRef = some mat →
          DisposeAction.material mat.id ∈ (s.handleGeometry key g).2)
      ∧ (∀ (s : RendererState) (t : Nat), s.currentTexture = some t →
          DisposeAction.texture t ∈ s.dispose.2) :=
  ⟨handleGeometry_no_texture, removeColumn_no_texture, resetWorld_no_texture,
    handleGeometry_disposes_replaced_material, dispose_releases_texture⟩

/-- Witness for C1 (amended), at a concrete renderer whose shared material
has id 7 and whose texture has id 2: replacing the mesh at section
`(0,0,0)` emits no texture release but does dispose material 7, and
teardown releases texture 2. -/
theorem C1_shared_resources_amended_witness :
    (∀ a ∈ ((⟨true, true, 4, [(0, 0)], [], [],
        [((0, 0, 0), Object3D.node (some 5) (some ⟨7, [2]⟩) Object3DList.nil)],
        some ⟨7, [2]⟩, some 2⟩ : RendererState).handleGeometry (0, 0, 0) 9).2,
      a.isTextureDispose = false)
      ∧ (lookupMesh (0, 0, 0)
            (⟨true, true, 4, [(0, 0)], [], [],
              [((0, 0, 0), Object3D.node (some 5) (some ⟨7, [2]⟩) Object3DList.nil)],
              some ⟨7, [2]⟩, some 2⟩ : RendererState).sectionMeshs
          = some (Object3D.node (some 5) (some ⟨7, [2]⟩) Object3DList.nil))
      ∧ ((⟨true, true, 4, [(0, 0)], [], [],
            [((0, 0, 0), Object3D.node (some 5) (some ⟨7, [2]⟩) Object3DList.nil)],
            some ⟨7, [2]⟩, some 2⟩ : RendererState).currentTexture = some 2)
      ∧ DisposeAction.texture 2 ∈
          (⟨true, true, 4, [(0, 0)], [], [],
            [((0, 0, 0), Object3D.node (some 5) (some ⟨7, [2]⟩) Object3DList.nil)],
            some ⟨7, [2]⟩, some 2⟩ : RendererState).dispose.2 := by
  refine ⟨?_, rfl, rfl, ?_⟩
  · exact C1_shared_resources_amended.1
      ⟨true, true, 4, [(0, 0)], [], [],
        [((0, 0, 0), Object3D.node (some 5) (some ⟨7, [2]⟩) Object3DList.nil)],
        some ⟨7, [2]⟩, some 2⟩ (0, 0, 0) 9
  · exact C1_shared_resources_amended.2.2.2.2
      ⟨true, true, 4, [(0, 0)], [], [],
        [((0, 0, 0), Object3D.node (some 5) (some ⟨7, [2]⟩) Object3DList.nil)],
        some ⟨7, [2]⟩, some 2⟩ 2 rfl

/-! ### Claim C2: texture swap ordering -/

/-- C2 counterexample: with a previous texture 1 installed, loading the new
texture 2 produces the event trace `[disposeTex 1, installTex 2]` — the old
texture is disposed BEFORE the new one is installed on the shared material,
so the claimed install-before-dispose ordering is false. -/
theorem C2_counterexample :
    ((⟨true, true, 4, [], [], [], [], some ⟨7, [1]⟩, some 1⟩ : RendererState).textureLoadCallback 2).2
        = [TexEvent.disposeTex 1, TexEvent.installTex 2]
      ∧ ¬ (((⟨true, true, 4, [], [], [], [], some ⟨7, [1]⟩, some 1⟩ : RendererState).textureLoadCallback 2).2.indexOf
              (TexEvent.installTex 2)
            < ((⟨true, true, 4, [], [], [], [], some ⟨7, [1]⟩, some 1⟩ : RendererState).textureLoadCallback 2).2.indexOf
              (TexEvent.disposeTex 1)) := by
  exact ⟨rfl, by decide⟩

/-- C2 (amended): when the shared texture is swapped and a previous texture
exists, the callback disposes the previous texture FIRST and then installs
the new texture on the shared material — both inside the same
synchronously-executed callback — after which `material.map` and
`currentTexture` hold the new texture. -/
theorem C2_texture_swap_amended (s : RendererState) (t tex : Nat)
    (h : s.currentTexture = some t) :
    (s.textureLoadCallback tex).2
        = [TexEvent.disposeTex t, TexEvent.installTex tex]
      ∧ (s.textureLoadCallback tex).1.currentTexture = some tex
      ∧ ∀ m, s.material = some m →
          (s.textureLoadCallback tex).1.material = some { m with maps := [tex] } := by
  unfold RendererState.textureLoadCallback
  refine ⟨by rw [h]; rfl, rfl, ?_⟩
  intro m hm
  dsimp only
  rw [hm]

/-- Witness for C2 (amended) at a renderer holding texture 1 and swapping in
texture 2. -/
theorem C2_texture_swap_amended_witness :
    ((⟨true, true, 4, [], [], [], [], some ⟨7, [1]⟩, some 1⟩ : RendererState).currentTexture = some 1)
      ∧ ((⟨true, true, 4, [], [], [], [], some ⟨7, [1]⟩, some 1⟩ : RendererState).textureLoadCallback 2).2
          = [TexEvent.disposeTex 1, TexEvent.installTex 2]
      ∧ ((⟨true, true, 4, [], [], [], [], some ⟨7, [1]⟩, some 1⟩ : RendererState).textureLoadCallback 2).1.currentTexture
          = some 2 := by
  refine ⟨rfl, ?_, ?_⟩
  · exact (C2_texture_swap_amended
      ⟨true, true, 4, [], [], [], [], some ⟨7, [1]⟩, some 1⟩ 1 2 rfl).1
  · exact (C2_texture_swap_amended
      ⟨true, true, 4, [], [], [], [], some ⟨7, [1]⟩, some 1⟩ 1 2 rfl).2.1

/-! ### Claim C9: soft failure on unloaded columns, mutation on loaded ones -/

theorem PColumn.getBlockStateId_set_same (c : PColumn) (p : Int × Int × Int)
    (sid : Nat) : (c.setBlockStateId p sid).getBlockStateId p = sid := by
  unfold PColumn.setBlockStateId PColumn.getBlockStateId
  dsimp only
  rw [List.find?_append]
  have hnone : (c.blocks.filter (fun e => decide (e.1 ≠ p))).find?
      (fun e => decide (e.1 = p)) = none := by
    rw [List.find?_eq_none]
    intro e he
    have := (List.mem_filter.mp he).2
    simp at this ⊢
    exact this
  rw [hnone]
  simp

theorem find?_map_update (l : List ((Int × Int) × PColumn)) (key : Int × Int)
    (f : PColumn → PColumn) (e : (Int × Int) × PColumn)
    (h : l.find? (fun e2 => decide (e2.1 = key)) = some e) :
    (l.map (fun e2 => if e2.1 = key then (e2.1, f e2.2) else e2)).find?
        (fun e2 => decide (e2.1 = key)) = some (key, f e.2) := by
  induction l with
  | nil => simp at h
  | cons hd tl ih =>
      by_cases hk : hd.1 = key
      · rw [List.find?_cons_of_pos] at h
        · rw [List.map_cons, if_pos hk, List.find?_cons_of_pos]
          · cases h
            rw [hk]
          · simpa using hk
        · simpa using hk
      · rw [List.find?_cons_of_neg] at h
        · rw [List.map_cons, if_neg hk, List.find?_cons_of_neg]
          · exact ih h
          · simpa using hk
        · simpa using hk

/-- C9: for every position whose owning column is not loaded, `getBlock`
returns `null` leaving the world untouched and `setBlockStateId` returns
`false` leaving the world unchanged; for a loaded owning column,
`setBlockStateId` returns `true` and the block state at `posInChunk(pos)` of
that column is the new state id. -/
theorem C9_world_block_access (w : WWorld) (pos : Vec3) (sid : Nat) :
    (w.columns.find? (fun e => decide (e.1 = columnKeyOfPos pos)) = none →
        w.getBlock pos = (none, w) ∧ w.setBlockStateId pos sid = (false, w))
      ∧ (∀ e, w.columns.find? (fun e2 => decide (e2.1 = columnKeyOfPos pos)) = some e →
          (w.setBlockStateId pos sid).1 = true
            ∧ ∃ col : PColumn,
                ((w.setBlockStateId pos sid).2).getColumn
                    (columnKeyOfPos pos).1 (columnKeyOfPos pos).2 = some col
                  ∧ col.getBlockStateId (posInChunk pos) = sid) := by
  constructor
  · intro hnone
    constructor
    · unfold WWorld.getBlock
      dsimp only
      rw [hnone]
    · unfold WWorld.setBlockStateId
      dsimp only
      rw [hnone]
  · intro e hsome
    constructor
    · unfold WWorld.setBlockStateId
      dsimp only
      rw [hsome]
    · refine ⟨e.2.setBlockStateId (posInChunk pos) sid, ?_, ?_⟩
      · unfold WWorld.setBlockStateId
        dsimp only
        rw [hsome]
        dsimp only
        unfold WWorld.getColumn
        have := find?_map_update w.columns (columnKeyOfPos pos)
          (fun c => c.setBlockStateId (posInChunk pos) sid) e hsome
        dsimp only at this
        rw [this]
      · exact PColumn.getBlockStateId_set_same e.2 (posInChunk pos) sid

/-- Witness for C9: in a world holding only the column at key `(0, 0)`,
querying `(20, 5, 3)` (owning column `(16, 0)`, unloaded) soft-fails, while
setting the block at `(3, 5, 3)` (owning column `(0, 0)`, loaded) succeeds
and stores state id 42. -/
theorem C9_world_block_access_witness :
    ((⟨[((0, 0), ⟨[true], []⟩)], LRUCache.empty Block 10⟩ : WWorld).getBlock ⟨20, 5, 3⟩
        = (none, ⟨[((0, 0), ⟨[true], []⟩)], LRUCache.empty Block 10⟩)
      ∧ (⟨[((0, 0), ⟨[true], []⟩)], LRUCache.empty Block 10⟩ : WWorld).setBlockStateId ⟨20, 5, 3⟩ 42
        = (false, ⟨[((0, 0), ⟨[true], []⟩)], LRUCache.empty Block 10⟩))
      ∧ ((⟨[((0, 0), ⟨[true], []⟩)], LRUCache.empty Block 10⟩ : WWorld).setBlockStateId ⟨3, 5, 3⟩ 42).1 = true
      ∧ ∃ col : PColumn,
          (((⟨[((0, 0), ⟨[true], []⟩)], LRUCache.empty Block 10⟩ : WWorld).setBlockStateId ⟨3, 5, 3⟩ 42).2).getColumn 0 0
              = some col
            ∧ col.getBlockStateId (posInChunk ⟨3, 5, 3⟩) = 42 := by
  refine ⟨?_, ?_⟩
  · exact (C9_world_block_access
      ⟨[((0, 0), ⟨[true], []⟩)], LRUCache.empty Block 10⟩ ⟨20, 5, 3⟩ 42).1 (by decide)
  · have h := (C9_world_block_access
      ⟨[((0, 0), ⟨[true], []⟩)], LRUCache.empty Block 10⟩ ⟨3, 5, 3⟩ 42).2
      ((0, 0), ⟨[true], []⟩) (by decide)
    exact ⟨h.1, h.2⟩

/-! ### Claim C8: every drained section emits a completion signal -/

theorem count_eq_one_of_nodup_mem {α} [BEq α] [LawfulBEq α] {l : List α}
    {k : α} (hnd : l.Nodup) (hk : k ∈ l) : l.count k = 1 := by
  induction l with
  | nil => simp at hk
  | cons a t ih =>
      rw [List.count_cons]
      rcases List.mem_cons.mp hk with rfl | hmem
      · have hnotin : k ∉ t := (List.nodup_cons.mp hnd).1
        rw [List.count_eq_zero.mpr hnotin]
        simp
      · have hne : a ≠ k := by
          rintro rfl
          exact (List.nodup_cons.mp hnd).1 hmem
        rw [ih (List.nodup_cons.mp hnd).2 hmem]
        simp [hne]

theorem drain_count (w : WWorld) (mesher : SectionKey → Except String Nat)
    (sections : List SectionKey) :
    ∀ (acc : WorkerState × List OutMsg) (k : SectionKey),
      ((sections.foldl (drainStep w mesher) acc).2.count (OutMsg.sectionFinished k))
        = acc.2.count (OutMsg.sectionFinished k) + sections.count k := by
  induction sections with
  | nil => intro acc k; simp
  | cons key rest ih =>
      intro acc k
      rw [List.foldl_cons, ih, List.count_cons]
      have hstep : (drainStep w mesher acc key).2.count (OutMsg.sectionFinished k)
          = acc.2.count (OutMsg.sectionFinished k)
            + (if key == k then 1 else 0) := by
        unfold drainStep
        split
        · dsimp only
          rw [List.count_append, List.count_append]
          have hmsgs : (match mesher key with
              | .ok geom => [OutMsg.geometry key geom]
              | .error e => [OutMsg.generationError key e]).count
                (OutMsg.sectionFinished k) = 0 := by
            cases mesher key <;> simp [List.count_singleton]
          rw [hmsgs]
          simp [List.count_singleton]
        · dsimp only
          rw [List.count_append]
          simp [List.count_singleton]
      rw [hstep]
      omega

theorem drain_mem_mono (w : WWorld) (mesher : SectionKey → Except String Nat)
    (sections : List SectionKey) :
    ∀ (acc : WorkerState × List OutMsg) (a : OutMsg), a ∈ acc.2 →
      a ∈ (sections.foldl (drainStep w mesher) acc).2 := by
  induction sections with
  | nil => intro acc a ha; exact ha
  | cons key rest ih =>
      intro acc a ha
      rw [List.foldl_cons]
      apply ih
      unfold drainStep
      split <;> dsimp only <;> simp [ha]

theorem drain_geometry_mem (w : WWorld) (mesher : SectionKey → Except String Nat)
    (sections : List SectionKey) :
    ∀ (acc : WorkerState × List OutMsg) (k : SectionKey) (g : Nat),
      k ∈ sections → sectionStillExists w k = true → mesher k = .ok g →
      OutMsg.geometry k g ∈ (sections.foldl (drainStep w mesher) acc).2 := by
  induction sections with
  | nil => intro acc k g hk; simp at hk
  | cons key rest ih =>
      intro acc k g hk hex hok
      rw [List.foldl_cons]
      rcases List.mem_cons.mp hk with rfl | hk2
      · apply drain_mem_mono
        unfold drainStep
        rw [if_pos hex]
        dsimp only
        rw [hok]
        simp
      · exact ih _ k g hk2 hex hok

theorem drain_error_mem (w : WWorld) (mesher : SectionKey → Except String Nat)
    (sections : List SectionKey) :
    ∀ (acc : WorkerState × List OutMsg) (k : SectionKey) (e : String),
      k ∈ sections → sectionStillExists w k = true → mesher k = .error e →
      OutMsg.generationError k e ∈ (sections.foldl (drainStep w mesher) acc).2 := by
  induction sections with
  | nil => intro acc k e hk; simp at hk
  | cons key rest ih =>
      intro acc k e hk hex herr
      rw [List.foldl_cons]
      rcases List.mem_cons.mp hk with rfl | hk2
      · apply drain_mem_mono
        unfold drainStep
        rw [if_pos hex]
        dsimp only
        rw [herr]
        simp
      · exact ih _ k e hk2 hex herr

/-- C8: with the replica world and block-state table present, one drain of
the dirty queue emits exactly one `sectionFinished` for every queued key —
whether the section was meshed successfully, the mesher threw, or the
section was skipped because its column/sub-chunk no longer exists — and a
mesher result additionally emits its `geometry` (success) or per-section
error signal (failure) without preventing any other key's completion. -/
theorem C8_drain_completion (ws : WorkerState)
    (mesher : SectionKey → Except String Nat) (w : WWorld) (bs : Nat)
    (hw : ws.world = some w) (hbs : ws.blocksStates = some bs)
    (hnd : ws.dirtySections.Nodup) :
    (∀ k ∈ ws.dirtySections,
        (processDirtySections ws mesher).2.count (OutMsg.sectionFinished k) = 1)
      ∧ (∀ k ∈ ws.dirtySections, sectionStillExists w k = true →
          ∀ g, mesher k = .ok g →
            OutMsg.geometry k g ∈ (processDirtySections ws mesher).2)
      ∧ (∀ k ∈ ws.dirtySections, sectionStillExists w k = true →
          ∀ e, mesher k = .error e →
            OutMsg.generationError k e ∈ (processDirtySections ws mesher).2) := by
  have hmain : ∀ k ∈ ws.dirtySections,
      processDirtySections ws mesher
        = ws.dirtySections.foldl (drainStep w mesher) (ws, []) := by
    intro k hk
    unfold processDirtySections
    rw [hw, hbs]
    dsimp only
    rw [if_neg]
    intro hlen
    rw [List.length_eq_zero] at hlen
    rw [hlen] at hk
    simp at hk
  refine ⟨?_, ?_, ?_⟩
  · intro k hk
    rw [hmain k hk, drain_count]
    have := count_eq_one_of_nodup_mem hnd hk
    simpa using this
  · intro k hk hex g hok
    rw [hmain k hk]
    exact drain_geometry_mem w mesher ws.dirtySections (ws, []) k g hk hex hok
  · intro k hk hex e herr
    rw [hmain k hk]
    exact drain_error_mem w mesher ws.dirtySections (ws, []) k e hk hex herr

/-- Witness for C8: a worker holding column `(0,0)` (one sub-chunk) with
queue `[(0,0,0), (0,16,0)]` and a mesher that throws on `(0,0,0)`: both
sections emit exactly one completion — `(0,16,0)` is skipped (its sub-chunk
is absent) yet still completes — and the failure also emits its error
signal. -/
theorem C8_drain_completion_witness :
    ((⟨some ⟨[((0, 0), ⟨[true], []⟩)], LRUCache.empty Block 10⟩, some 1,
          [(0, 0, 0), (0, 16, 0)]⟩ : WorkerState).dirtySections.Nodup
      ∧ (processDirtySections
          ⟨some ⟨[((0, 0), ⟨[true], []⟩)], LRUCache.empty Block 10⟩, some 1,
            [(0, 0, 0), (0, 16, 0)]⟩
          (fun k => if k = (0, 0, 0) then Except.error "boom" else Except.ok 7)).2.count
            (OutMsg.sectionFinished (0, 0, 0)) = 1
      ∧ (processDirtySections
          ⟨some ⟨[((0, 0), ⟨[true], []⟩)], LRUCache.empty Block 10⟩, some 1,
            [(0, 0, 0), (0, 16, 0)]⟩
          (fun k => if k = (0, 0, 0) then Except.error "boom" else Except.ok 7)).2.count
            (OutMsg.sectionFinished (0, 16, 0)) = 1
      ∧ OutMsg.generationError (0, 0, 0) "boom" ∈
          (processDirtySections
            ⟨some ⟨[((0, 0), ⟨[true], []⟩)], LRUCache.empty Block 10⟩, some 1,
              [(0, 0, 0), (0, 16, 0)]⟩
            (fun k => if k = (0, 0, 0) then Except.error "boom" else Except.ok 7)).2) := by
  have h := C8_drain_completion
    ⟨some ⟨[((0, 0), ⟨[true], []⟩)], LRUCache.empty Block 10⟩, some 1,
      [(0, 0, 0), (0, 16, 0)]⟩
    (fun k => if k = (0, 0, 0) then Except.error "boom" else Except.ok 7)
    ⟨[((0, 0), ⟨[true], []⟩)], LRUCache.empty Block 10⟩ 1 rfl rfl (by decide)
  refine ⟨by decide, ?_, ?_, ?_⟩
  · exact h.1 (0, 0, 0) (by decide)
  · exact h.1 (0, 16, 0) (by decide)
  · exact h.2.2 (0, 0, 0) (by decide) (by decide) "boom" rfl

/-! ### Claim C7 lemmas -/

theorem WaitState.run_waiters (evs : List RenderEvent) :
    ∀ (out : List SectionKey) (ws : List Bool),
      (WaitState.run ⟨out, ws⟩ evs).waiters
        = ws.map (fun w => w || resolvedAfter out evs) := by
  induction evs with
  | nil =>
      intro out ws
      simp [WaitState.run, resolvedAfter]
  | cons e rest ih =>
      intro out ws
      cases e with
      | markDirty k =>
          have hstep : WaitState.run ⟨out, ws⟩ (RenderEvent.markDirty k :: rest)
              = WaitState.run ⟨insertKey k out, ws⟩ rest := by
            simp [WaitState.run, WaitState.step]
          rw [hstep, ih]
          rfl
      | sectionFinished k =>
          have hstep : WaitState.run ⟨out, ws⟩ (RenderEvent.sectionFinished k :: rest)
              = WaitState.run ⟨removeKey k out,
                  ws.map (fun w => w || (removeKey k out).isEmpty)⟩ rest := by
            simp [WaitState.run, WaitState.step]
          rw [hstep, ih, List.map_map]
          have hfun : ((fun w => w || resolvedAfter (removeKey k out) rest)
                ∘ (fun w => w || (removeKey k out).isEmpty))
              = (fun w => w ||
                  resolvedAfter out (RenderEvent.sectionFinished k :: rest)) := by
            funext w
            simp [Function.comp, resolvedAfter, Bool.or_assoc]
          rw [hfun]

theorem resolvedAfter_mono (evs evs2 : List RenderEvent) :
    ∀ out : List SectionKey, resolvedAfter out evs = true →
      resolvedAfter out (evs ++ evs2) = true := by
  induction evs with
  | nil => intro out h; simp [resolvedAfter] at h
  | cons e rest ih =>
      intro out h
      cases e with
      | markDirty k =>
          rw [List.cons_append, resolvedAfter]
          rw [resolvedAfter] at h
          exact ih _ h
      | sectionFinished k =>
          rw [List.cons_append, resolvedAfter]
          rw [resolvedAfter] at h
          rcases Bool.or_eq_true_iff.mp h with h2 | h2
          · rw [h2]
            rfl
          · rw [ih _ h2]
            simp

theorem resolvedAfter_iff (evs : List RenderEvent) :
    ∀ out : List SectionKey,
      resolvedAfter out evs = true
        ↔ ∃ pre k post, evs = pre ++ RenderEvent.sectionFinished k :: post
            ∧ outAfter out (pre ++ [RenderEvent.sectionFinished k]) = [] := by
  induction evs with
  | nil =>
      intro out
      constructor
      · intro h
        simp [resolvedAfter] at h
      · rintro ⟨pre, k, post, heq, -⟩
        exact absurd heq.symm (by simp)
  | cons e rest ih =>
      intro out
      cases e with
      | markDirty k0 =>
          rw [resolvedAfter, ih (insertKey k0 out)]
          constructor
          · rintro ⟨pre, k, post, rfl, hout⟩
            exact ⟨RenderEvent.markDirty k0 :: pre, k, post, rfl,
              by simpa [outAfter] using hout⟩
          · rintro ⟨pre, k, post, heq, hout⟩
            cases pre with
            | nil => simp at heq
            | cons p0 pre2 =>
                rw [List.cons_append] at heq
                injection heq with h1 h2
                subst h1
                refine ⟨pre2, k, post, h2, ?_⟩
                simpa [outAfter] using hout
      | sectionFinished k0 =>
          rw [resolvedAfter]
          by_cases hemp : (removeKey k0 out).isEmpty = true
          · rw [hemp, Bool.true_or]
            constructor
            · intro _
              exact ⟨[], k0, rest, rfl,
                by simpa [outAfter, List.isEmpty_iff] using hemp⟩
            · intro _
              rfl
          · rw [Bool.eq_false_iff.mpr hemp, Bool.false_or, ih (removeKey k0 out)]
            constructor
            · rintro ⟨pre, k, post, rfl, hout⟩
              exact ⟨RenderEvent.sectionFinished k0 :: pre, k, post, rfl,
                by simpa [outAfter] using hout⟩
            · rintro ⟨pre, k, post, heq, hout⟩
              cases pre with
              | nil =>
                  simp only [List.nil_append] at heq
                  injection heq with h1 h2
                  injection h1 with h1
                  subst h1
                  subst h2
                  simp only [List.nil_append, outAfter] at hout
                  rw [List.isEmpty_iff] at hemp
                  exact absurd hout hemp
              | cons p0 pre2 =>
                  rw [List.cons_append] at heq
                  injection heq with h1 h2
                  subst h1
                  refine ⟨pre2, k, post, h2, ?_⟩
                  simpa [outAfter] using hout

/-- C7: `waitForChunksToRender()` resolves immediately when the outstanding
set is empty; otherwise it registers an unresolved waiter whose promise,
over any subsequent stream of mark/completion events, (i) is resolved
exactly when some prefix of the stream ends with a completion signal that
leaves the outstanding set empty — the next transition to empty — (ii)
stays resolved thereafter (it cannot resolve twice), and (iii) is
independent of the other callers: any number of concurrently registered
waiters all carry the same resolution status. -/
theorem C7_wait_for_chunks (s : WaitState) :
    (s.outstanding = [] → s.waitForChunksToRender = (true, s))
      ∧ (s.outstanding ≠ [] →
          s.waitForChunksToRender
              = (false, { s with waiters := s.waiters ++ [false] })
            ∧ ∀ evs : List RenderEvent,
              ((s.waitForChunksToRender.2).run evs).waiters
                = s.waiters.map (fun w => w || resolvedAfter s.outstanding evs)
                  ++ [resolvedAfter s.outstanding evs])
      ∧ (∀ (out : List SectionKey) (evs : List RenderEvent),
          resolvedAfter out evs = true
            ↔ ∃ pre k post, evs = pre ++ RenderEvent.sectionFinished k :: post
                ∧ outAfter out (pre ++ [RenderEvent.sectionFinished k]) = [])
      ∧ (∀ (out : List SectionKey) (evs evs2 : List RenderEvent),
          resolvedAfter out evs = true → resolvedAfter out (evs ++ evs2) = true)
      ∧ (∀ (out : List SectionKey) (m : Nat) (evs : List RenderEvent),
          (WaitState.run ⟨out, List.replicate m false⟩ evs).waiters
            = List.replicate m (resolvedAfter out evs)) := by
  refine ⟨?_, ?_, fun out evs => resolvedAfter_iff evs out,
    fun out evs evs2 h => resolvedAfter_mono evs evs2 out h, ?_⟩
  · intro h
    unfold WaitState.waitForChunksToRender
    rw [if_pos (by simp [h])]
  · intro h
    have hwait : s.waitForChunksToRender
        = (false, { s with waiters := s.waiters ++ [false] }) := by
      unfold WaitState.waitForChunksToRender
      rw [if_neg (by simpa [List.isEmpty_iff] using h)]
    refine ⟨hwait, ?_⟩
    intro evs
    rw [hwait]
    dsimp only
    have hrun := WaitState.run_waiters evs s.outstanding (s.waiters ++ [false])
    rw [show ({ s with waiters := s.waiters ++ [false] } : WaitState)
        = ⟨s.outstanding, s.waiters ++ [false]⟩ from rfl, hrun]
    simp
  · intro out m evs
    rw [WaitState.run_waiters]
    simp

/-- Witness for C7: with section `(0,0,0)` outstanding, a call registers an
unresolved waiter, and the single completion event for that section resolves
it; with nothing outstanding the call resolves immediately. -/
theorem C7_wait_for_chunks_witness :
    ((⟨[], [] ⟩ : WaitState).outstanding = []
        ∧ (⟨[], []⟩ : WaitState).waitForChunksToRender = (true, ⟨[], []⟩))
      ∧ ((⟨[(0, 0, 0)], []⟩ : WaitState).outstanding ≠ []
        ∧ (((⟨[(0, 0, 0)], []⟩ : WaitState).waitForChunksToRender.2).run
              [RenderEvent.sectionFinished (0, 0, 0)]).waiters = [true]) := by
  refine ⟨⟨rfl, ?_⟩, ⟨by decide, ?_⟩⟩
  · exact (C7_wait_for_chunks ⟨[], []⟩).1 rfl
  · have h := ((C7_wait_for_chunks ⟨[(0, 0, 0)], []⟩).2.1 (by decide)).2
      [RenderEvent.sectionFinished (0, 0, 0)]
    rw [h]
    decide
